import Mathlib

/-!
Shallow embedding of `src/vault.py` (the `PortableVault` password-protected
container) and proofs checking the specification's claims against it.

Modelling conventions:
* Byte strings are `List Nat`; text strings are `List Char` (python `str`).
* The AES-GCM primitive (`cryptography.hazmat...AESGCM`) is an external
  library, not repository code; it is modelled as an abstract `AEAD`
  structure (encrypt total, decrypt partial).  Security facts about it
  (round-trip, rejection under a wrong key) appear as explicit hypotheses,
  and a concrete executable instance `toyAEAD` discharges them in witnesses.
* `os.urandom` nonces enter as an explicit supply `Nat → Bytes` with a
  counter, keeping the embedding deterministic and executable.
* Python dicts are association lists with python's update semantics
  (overwrite in place, append new keys), preserving insertion order,
  which is what `for k in dict` iterates in.
* Filesystem reads are `Option Bytes` (`none` = `read_bytes` raises).
-/

abbrev Bytes := List Nat
abbrev Str := List Char

/-- Convert a Lean string literal to the `Str` model of python strings. -/
def chars (x : String) : Str := x.data

/-- Python dict assignment `m[k] = v`: overwrite in place, else append. -/
def dictSet {α : Type} (m : List (Str × α)) (k : Str) (v : α) : List (Str × α) :=
  if m.any (fun p => p.1 == k) then
    m.map (fun p => if p.1 == k then (k, v) else p)
  else
    m ++ [(k, v)]

/-- Python dict lookup `m[k]` (first matching key). -/
def dictGet {α : Type} (m : List (Str × α)) (k : Str) : Option α :=
  (m.find? (fun p => p.1 == k)).map (·.2)

/-- Python `del m[k]`. -/
def dictDel {α : Type} (m : List (Str × α)) (k : Str) : List (Str × α) :=
  m.filter (fun p => p.1 != k)

/-- Exceptions raised by the vault code: `VaultError(msg)`, the
`cryptography` library's `InvalidTag` from a failed AEAD decryption, and
an OS-level error from `Path.read_bytes`. -/
inductive PyErr where
  | vaultError (msg : Str)
  | invalidTag
  | ioError
  deriving DecidableEq, Repr

/-- Abstract AEAD cipher (models `AESGCM`): `enc key nonce data`,
`dec key nonce ct` (`none` = the library raises `InvalidTag`). -/
structure AEAD where
  enc : Bytes → Bytes → Bytes → Bytes
  dec : Bytes → Bytes → Bytes → Option Bytes

/-- The AEAD functional-correctness property: decrypting with the same key
and nonce restores the plaintext. -/
def RoundTrip (A : AEAD) : Prop :=
  ∀ k n d, A.dec k n (A.enc k n d) = some d

/-- A concrete executable AEAD instance used in witnesses: the ciphertext
is `key ++ nonce ++ data`, and decryption succeeds iff `key ++ nonce` is a
prefix of the ciphertext. -/
def toyAEAD : AEAD where
  enc k n d := k ++ n ++ d
  dec k n c := if (k ++ n).isPrefixOf c then some (c.drop (k ++ n).length) else none

/-- A concrete executable key-derivation function used in witnesses
(models `PBKDF2HMAC.derive` only to the extent the proofs need: it is a
function of the password and salt). -/
def toyKdf (password : Str) (salt : Bytes) : Bytes :=
  password.map Char.toNat ++ salt

/-- The pickled vault record `{'salt', 'ver_nonce', 'ver_tag', 'files',
'metadata'}`: `files` maps entry key to `(nonce, ciphertext)`, `metadata`
maps entry key to a python dict of named fields (the code stores
`{'size': len(data)}`). -/
structure Container where
  salt : Bytes
  ver_nonce : Bytes
  ver_tag : Bytes
  files : List (Str × (Bytes × Bytes))
  metadata : List (Str × (List (Str × Nat)))
  deriving DecidableEq, Repr

/-- The fixed plaintext `b"verify"` encrypted into the verification tag at
creation time. -/
def verifyBytes : Bytes := (chars "verify").map Char.toNat

/-- The single message `_verify_vault` reports for every open-time
verification failure. -/
def verifyFailMsg : Str := chars "Authentication failed: Incorrect password."

/-- `main`'s `create` branch: a fresh container with an empty entry table
and a verification tag `AESGCM(key).encrypt(nonce, b"verify", None)`. -/
def createContainer (A : AEAD) (kdf : Str → Bytes → Bytes) (password : Str)
    (salt nonce : Bytes) : Container :=
  { salt := salt
    ver_nonce := nonce
    ver_tag := A.enc (kdf password salt) nonce verifyBytes
    files := []
    metadata := [] }

/-- `PortableVault._verify_vault`: authenticate-decrypt the stored token;
any failure raises the one `VaultError`. -/
def verify_vault (A : AEAD) (key : Bytes) (c : Container) : Except PyErr Unit :=
  match A.dec key c.ver_nonce c.ver_tag with
  | some _ => .ok ()
  | none => .error (.vaultError verifyFailMsg)

/-- `PortableVault.__init__` after the container has been unpickled:
derive the key from the password and the stored salt, then verify.
Returns the derived key on success. -/
def openVault (A : AEAD) (kdf : Str → Bytes → Bytes) (c : Container)
    (password : Str) : Except PyErr Bytes :=
  let key := kdf password c.salt
  match verify_vault A key c with
  | .ok _ => .ok key
  | .error e => .error e

/-! ## Filesystem model, staging and commit -/

/-- A filesystem subtree: a regular file holds `Option Bytes`
(`none` = `read_bytes` raises an `OSError`), a directory holds named
children in listing order. -/
inductive FsTree where
  | file (content : Option Bytes)
  | dir (children : List (Str × FsTree))

/-- A staged path (`PortableVault.staging_area` element): its final name
component (`path.name`) and the subtree it refers to on disk. -/
structure Staged where
  name : Str
  tree : FsTree

/-- `str(base / n)`: path join with `/`. -/
def joinP (base n : Str) : Str := base ++ '/' :: n

mutual
/-- `os.walk(path)` as used by `commit_updates`: top-down, for each
directory first its regular files in listing order, then each
subdirectory recursively, each file keyed by its path relative to the
staged path's parent (so `base` carries the directory's own name). -/
def walkT (base : Str) : FsTree → List (Str × Option Bytes)
  | .file _ => []
  | .dir ch =>
    ch.filterMap (fun p =>
      match p.2 with
      | .file c => some (joinP base p.1, c)
      | .dir _ => none)
    ++ walkSub base ch

/-- Walk each child subtree in listing order (a file child contributes
nothing here; it was already listed at its own level). -/
def walkSub (base : Str) : List (Str × FsTree) → List (Str × Option Bytes)
  | [] => []
  | (n, t) :: rest => walkT (joinP base n) t ++ walkSub base rest
end

/-- The `(vault_key, file read result)` pairs one staged path contributes
in `commit_updates`: a single file's key is its name (`path.name`), a
directory is walked with each key relative to the directory's parent. -/
def stagedEntries (s : Staged) : List (Str × Option Bytes) :=
  match s.tree with
  | .file c => [(s.name, c)]
  | .dir _ => walkT s.name s.tree

/-- `PortableVault._encrypt_and_store` after a successful read: a fresh
nonce, `files[key] = (nonce, encrypt(nonce, data))`,
`metadata[key] = {'size': len(data)}`. -/
def encStore (A : AEAD) (key : Bytes) (c : Container) (nonce : Bytes)
    (vault_key : Str) (data : Bytes) : Container :=
  { c with
    files := dictSet c.files vault_key (nonce, A.enc key nonce data)
    metadata := dictSet c.metadata vault_key [(chars "size", data.length)] }

/-- The loop body of `commit_updates` over all derived `(key, read)` pairs:
each read failure raises immediately (the `OSError` from `read_bytes`
propagates out of the loop); a nonce is drawn from the supply only after a
successful read, as in `_encrypt_and_store`.  Returns the container as
mutated so far, the next nonce index, and the raised error if any. -/
def storeMany (A : AEAD) (key : Bytes) (supply : Nat → Bytes) :
    Nat → Container → List (Str × Option Bytes) → Container × Nat × Option PyErr
  | i, c, [] => (c, i, none)
  | i, c, (_, none) :: _ => (c, i, some .ioError)
  | i, c, (k, some d) :: rest =>
    storeMany A key supply (i + 1) (encStore A key c (supply i) k d) rest

/-- The mutable state of an open `PortableVault`: the in-memory container,
the staging area, and the container currently persisted in the vault file
(what `_save` last wrote). -/
structure VaultState where
  container : Container
  staging : List Staged
  vaultFile : Container

/-- `PortableVault.commit_updates`: nothing staged is a no-op; otherwise
process every staged path in order, then `_save` and clear the staging
area.  A raised error propagates before `_save`: the partially mutated
in-memory container survives, the vault file and staging area are
untouched. -/
def commit_updates (A : AEAD) (key : Bytes) (supply : Nat → Bytes) (i : Nat)
    (st : VaultState) : Except PyErr Unit × VaultState × Nat :=
  if st.staging.isEmpty then (.ok (), st, i)
  else
    match storeMany A key supply i st.container (st.staging.flatMap stagedEntries) with
    | (c', i', some e) => (.error e, { st with container := c' }, i')
    | (c', i', none) => (.ok (), ⟨c', [], c'⟩, i')

/-! ## Pattern matching, extract, delete -/

/-- The match test shared by `extract` and `delete`:
`v_path == pattern or v_path.startswith(pattern + "/")`. -/
def vaultMatch (pat k : Str) : Bool :=
  k == pat || (pat ++ ['/']).isPrefixOf k

/-- `VaultError(f"No matches found for '{pattern}'.")`. -/
def noMatchMsg (pat : Str) : Str :=
  chars "No matches found for '" ++ pat ++ chars "'."

/-- `VaultError(f"'{pattern}' not found.")`. -/
def notFoundMsg (pat : Str) : Str :=
  ['\''] ++ pat ++ chars "' not found."

/-- The loop of `PortableVault.extract` over the entry table in insertion
order: each matching entry is decrypted and written to `out_dir / key`;
a failed decryption raises `InvalidTag` out of the loop, keeping the
writes already made.  Returns (writes, found flag, raised error). -/
def extractLoop (A : AEAD) (key : Bytes) (pat outDir : Str) :
    List (Str × (Bytes × Bytes)) → List (Str × Bytes) × Bool × Option PyErr
  | [] => ([], false, none)
  | (k, (n, ct)) :: rest =>
    if vaultMatch pat k then
      match A.dec key n ct with
      | none => ([], true, some .invalidTag)
      | some d =>
        let (ws, _, e) := extractLoop A key pat outDir rest
        ((joinP outDir k, d) :: ws, true, e)
    else
      let (ws, f, e) := extractLoop A key pat outDir rest
      (ws, f, e)

/-- `PortableVault.extract`: run the loop; afterwards, if nothing matched,
raise `VaultError("No matches found ...")`.  The first component is the
list of `(path, content)` files written to disk by the call. -/
def extract (A : AEAD) (key : Bytes) (c : Container) (pat outDir : Str) :
    List (Str × Bytes) × Option PyErr :=
  match extractLoop A key pat outDir c.files with
  | (ws, _, some e) => (ws, some e)
  | (ws, found, none) =>
    if found then (ws, none) else (ws, some (.vaultError (noMatchMsg pat)))

/-- `PortableVault.delete`: first unstage every staged path whose name
equals the pattern, then collect matching entry keys; none ⇒
`VaultError("... not found.")` with the staging area already filtered;
otherwise remove all matching keys from both tables and `_save`. -/
def delete (st : VaultState) (pat : Str) : Except PyErr Unit × VaultState :=
  let staging' := st.staging.filter (fun s => s.name != pat)
  let targets := (st.container.files.map (·.1)).filter (fun k => vaultMatch pat k)
  if targets = [] then
    (.error (.vaultError (notFoundMsg pat)), { st with staging := staging' })
  else
    let c' : Container :=
      { st.container with
        files := targets.foldl dictDel st.container.files
        metadata := targets.foldl dictDel st.container.metadata }
    (.ok (), ⟨c', staging', c'⟩)

/-! ## Command dispatch and the save protocol -/

/-- The command cases of `run_shell`'s `match command:`. -/
inductive Cmd where
  | ls | add | update | extractC | deleteC | exitC | unknown
  deriving DecidableEq, Repr

/-- The dispatch table of `run_shell`: `delete`/`rm` and `exit`/`quit` are
aliases; anything else prints "Unknown command". -/
def dispatch (command : Str) : Cmd :=
  if command = chars "ls" then .ls
  else if command = chars "add" then .add
  else if command = chars "update" then .update
  else if command = chars "extract" then .extractC
  else if command = chars "delete" ∨ command = chars "rm" then .deleteC
  else if command = chars "exit" ∨ command = chars "quit" then .exitC
  else .unknown

/-- One observable disk state during `_save`: the byte content of the
vault file and of the temporary `.tmp` file (if present). -/
structure Disk where
  vaultSlot : Bytes
  tempSlot : Option Bytes
  deriving DecidableEq, Repr

/-- `PortableVault._save` as its sequence of observable disk states, for a
serialization function `ser` (models `pickle.dump`): the temporary file is
written incrementally (every prefix is observable if the process is
interrupted), then `temp_file.replace(vault_file)` renames it over the
vault file in one atomic step. -/
def saveTrace (ser : Container → Bytes) (old new' : Container) : List Disk :=
  (List.range ((ser new').length + 1)).map
    (fun i => ⟨ser old, some ((ser new').take i)⟩)
  ++ [⟨ser new', none⟩]

/-- The invariant of an honestly built entry table: every stored
`(nonce, ciphertext)` pair decrypts under the vault key. -/
def AllDec (A : AEAD) (key : Bytes) (fs : List (Str × (Bytes × Bytes))) : Prop :=
  ∀ e ∈ fs, (A.dec key e.2.1 e.2.2).isSome

/-- The `(path, content)` pairs `extract` writes for a list of entries that
all decrypt: each matching entry contributes `out_dir / key` with its
decrypted content. -/
def goodWrites (A : AEAD) (key : Bytes) (pat outDir : Str)
    (fs : List (Str × (Bytes × Bytes))) : List (Str × Bytes) :=
  fs.filterMap (fun e =>
    if vaultMatch pat e.1 then
      (A.dec key e.2.1 e.2.2).map (fun d => (joinP outDir e.1, d))
    else none)

/-- The command words `run_shell` recognizes (aliases listed separately). -/
def knownCommands : List Str :=
  [chars "ls", chars "add", chars "update", chars "extract",
   chars "delete", chars "rm", chars "exit", chars "quit"]

/-! ## Concrete fixtures used in witnesses and counterexamples -/

/-- The key an open vault with password `pw1` and salt `[7]` holds. -/
def wKey : Bytes := toyKdf (chars "pw1") [7]

/-- A deterministic stand-in for the `os.urandom(12)` nonce supply. -/
def wSupply : Nat → Bytes := fun i => [100 + i]

/-- A freshly created empty vault container. -/
def wEmpty : Container := createContainer toyAEAD toyKdf (chars "pw1") [7] [9]

/-- The `docs` directory of the spec's example: `docs/a.txt` and
`docs/b/c.txt`. -/
def wDocsTree : FsTree :=
  .dir [(chars "a.txt", .file (some [1])),
        (chars "b", .dir [(chars "c.txt", .file (some [2]))])]

/-- State with the `docs` directory staged. -/
def wStDocs : VaultState := ⟨wEmpty, [⟨chars "docs", wDocsTree⟩], wEmpty⟩

/-- A container holding a corrupt entry `d/a` (its ciphertext does not
authenticate) followed by a good entry `d/b`. -/
def wBadContainer : Container :=
  { wEmpty with
    files := [(chars "d/a", ([0], [99])),
              (chars "d/b", ([0], toyAEAD.enc wKey [0] [5]))] }

/-- State with a readable file `a` staged before an unreadable file `b`. -/
def wSt5 : VaultState :=
  ⟨wEmpty, [⟨chars "a", .file (some [1])⟩, ⟨chars "b", .file none⟩], wEmpty⟩

/-- State with a staged path named `x` and an empty entry table. -/
def wSt10 : VaultState := ⟨wEmpty, [⟨chars "x", .file (some [1])⟩], wEmpty⟩

/-- A serialization function for the `_save` trace model. -/
def wSer : Container → Bytes := fun c => c.salt

/-! ## Helper lemmas -/

theorem toyAEAD_roundtrip : RoundTrip toyAEAD := by
  intro k n d
  simp [toyAEAD, List.isPrefixOf_iff_prefix, List.append_assoc,
    List.prefix_append, List.drop_left]

theorem mem_dictSet {α : Type} {m : List (Str × α)} {k : Str} {v : α} :
    ∀ e ∈ dictSet m k v, e ∈ m ∨ e = (k, v) := by
  intro e he
  unfold dictSet at he
  split at he
  · rcases List.mem_map.mp he with ⟨p, hp, hfp⟩
    split at hfp
    · exact Or.inr hfp.symm
    · exact Or.inl (hfp ▸ hp)
  · rcases List.mem_append.mp he with h | h
    · exact Or.inl h
    · exact Or.inr (List.mem_singleton.mp h)

theorem dictSet_mem_self {α : Type} {m : List (Str × α)} {k : Str} {v v' : α} :
    (k, v') ∈ dictSet m k v ↔ v' = v := by
  constructor
  · intro he
    unfold dictSet at he
    split at he
    · rcases List.mem_map.mp he with ⟨p, hp, hfp⟩
      split at hfp
      · injection hfp with h1 h2; exact h2.symm
      · next hk => exact absurd (by rw [hfp]; simp) hk
    · next hany =>
      rcases List.mem_append.mp he with h | h
      · exact absurd (List.any_eq_true.mpr ⟨(k, v'), h, by simp⟩) hany
      · injection List.mem_singleton.mp h with h1 h2
  · rintro rfl
    unfold dictSet
    split
    · next hany =>
      rcases List.any_eq_true.mp hany with ⟨p, hp, hpk⟩
      refine List.mem_map.mpr ⟨p, hp, ?_⟩
      simp only [hpk, if_true]
    · exact List.mem_append.mpr (Or.inr (List.mem_singleton.mpr rfl))

theorem allDec_encStore {A : AEAD} {key : Bytes} {c : Container}
    {nonce : Bytes} {k : Str} {data : Bytes}
    (hRT : RoundTrip A) (h : AllDec A key c.files) :
    AllDec A key (encStore A key c nonce k data).files := by
  intro e he
  rcases mem_dictSet e he with hm | rfl
  · exact h e hm
  · simp [hRT key nonce data]

theorem vaultMatch_iff (pat k : Str) :
    vaultMatch pat k = true ↔ k = pat ∨ (pat ++ ['/']) <+: k := by
  simp [vaultMatch, List.isPrefixOf_iff_prefix]

theorem joinP_right_inj {o a b : Str} (h : joinP o a = joinP o b) : a = b := by
  unfold joinP at h
  have := List.append_cancel_left h
  injection this

theorem extractLoop_eq {A : AEAD} {key : Bytes} {pat outDir : Str} :
    ∀ {fs : List (Str × (Bytes × Bytes))},
      (∀ e ∈ fs, vaultMatch pat e.1 = true → (A.dec key e.2.1 e.2.2).isSome) →
      extractLoop A key pat outDir fs =
        (goodWrites A key pat outDir fs, fs.any (fun e => vaultMatch pat e.1), none)
  | [], _ => by simp [extractLoop, goodWrites]
  | (k, (n, ct)) :: rest, h => by
    have ih := @extractLoop_eq A key pat outDir rest
      (fun e he => h e (List.mem_cons_of_mem _ he))
    by_cases hm : vaultMatch pat k = true
    · obtain ⟨d, hd⟩ := Option.isSome_iff_exists.mp
        (h (k, (n, ct)) (List.mem_cons_self _ _) hm)
      simp [extractLoop, hm, hd, ih, goodWrites]
    · simp [extractLoop, hm, ih, goodWrites]

theorem extractLoop_abort {A : AEAD} {key : Bytes} {pat outDir : Str}
    {k : Str} {n ct : Bytes} {post : List (Str × (Bytes × Bytes))}
    (hm : vaultMatch pat k = true) (hbad : A.dec key n ct = none) :
    ∀ {pre : List (Str × (Bytes × Bytes))},
      (∀ e ∈ pre, vaultMatch pat e.1 = true → (A.dec key e.2.1 e.2.2).isSome) →
      extractLoop A key pat outDir (pre ++ (k, (n, ct)) :: post) =
        (goodWrites A key pat outDir pre, true, some PyErr.invalidTag)
  | [], _ => by simp [extractLoop, hm, hbad, goodWrites]
  | (k', (n', ct')) :: pre', h => by
    have ih := @extractLoop_abort A key pat outDir k n ct post hm hbad pre'
      (fun e he => h e (List.mem_cons_of_mem _ he))
    by_cases hm' : vaultMatch pat k' = true
    · obtain ⟨d, hd⟩ := Option.isSome_iff_exists.mp
        (h (k', (n', ct')) (List.mem_cons_self _ _) hm')
      simp [extractLoop, hm', hd, ih, goodWrites]
    · simp [extractLoop, hm', ih, goodWrites]

mutual
theorem walkT_rebase (a b : Str) : ∀ t : FsTree,
    walkT (a ++ b) t = (walkT b t).map (fun p => (a ++ p.1, p.2))
  | .file _ => by simp [walkT]
  | .dir ch => by
    have hsub := walkSub_rebase a b ch
    simp only [walkT, hsub, List.map_append, List.map_filterMap]
    congr 1
    apply List.filterMap_congr
    intro p _
    cases p.2 <;> simp [joinP, List.append_assoc]

theorem walkSub_rebase (a b : Str) : ∀ l : List (Str × FsTree),
    walkSub (a ++ b) l = (walkSub b l).map (fun p => (a ++ p.1, p.2))
  | [] => by simp [walkSub]
  | (n, t) :: rest => by
    have h1 := walkT_rebase a (joinP b n) t
    have h2 := walkSub_rebase a b rest
    have hj : joinP (a ++ b) n = a ++ joinP b n := by
      simp [joinP, List.append_assoc]
    simp [walkSub, hj, h1, h2]
end

theorem mem_goodWrites {A : AEAD} {key : Bytes} {pat outDir : Str}
    {fs : List (Str × (Bytes × Bytes))} {e : Str × (Bytes × Bytes)} {d : Bytes}
    (he : e ∈ fs) (hm : vaultMatch pat e.1 = true)
    (hd : A.dec key e.2.1 e.2.2 = some d) :
    (joinP outDir e.1, d) ∈ goodWrites A key pat outDir fs :=
  List.mem_filterMap.mpr ⟨e, he, by simp [hm, hd]⟩

theorem of_mem_goodWrites {A : AEAD} {key : Bytes} {pat outDir : Str}
    {fs : List (Str × (Bytes × Bytes))} {p : Str} {b : Bytes}
    (h : (p, b) ∈ goodWrites A key pat outDir fs) :
    ∃ e ∈ fs, vaultMatch pat e.1 = true ∧ A.dec key e.2.1 e.2.2 = some b ∧
      p = joinP outDir e.1 := by
  rcases List.mem_filterMap.mp h with ⟨e, he, heq⟩
  by_cases hm : vaultMatch pat e.1 = true
  · rw [if_pos hm] at heq
    rcases Option.map_eq_some'.mp heq with ⟨d, hdec, hpd⟩
    injection hpd with h1 h2
    exact ⟨e, he, hm, by rw [hdec, h2], h1.symm⟩
  · rw [if_neg hm] at heq
    cases heq

/-! ## Claim theorems -/

/-- C2: Opening a vault with any passphrase whose derived key fails to
authenticate-decrypt the verification token always fails — it never
falsely succeeds — and every open-time verification failure (wrong key on
an honestly created vault, or a corrupted verification token) is reported
as the one identical `VaultError`, the two causes not distinguished. -/
theorem openVault_wrong_password_uniform_failure (A : AEAD)
    (kdf : Str → Bytes → Bytes) (p1 p2 : Str) (salt nonce : Bytes)
    (hA : A.dec (kdf p2 salt) nonce (A.enc (kdf p1 salt) nonce verifyBytes) = none) :
    openVault A kdf (createContainer A kdf p1 salt nonce) p2
      = .error (.vaultError verifyFailMsg) ∧
    ∀ c : Container, A.dec (kdf p2 c.salt) c.ver_nonce c.ver_tag = none →
      openVault A kdf c p2 = .error (.vaultError verifyFailMsg) := by
  constructor
  · simp [openVault, verify_vault, createContainer, hA]
  · intro c hc
    simp [openVault, verify_vault, hc]

/-- Witness for C2 at a concrete instance: a vault created with `pw1` and
opened with `pw2` under the toy cipher. -/
theorem openVault_wrong_password_uniform_failure_witness :
    toyAEAD.dec (toyKdf (chars "pw2") [7]) [9]
        (toyAEAD.enc (toyKdf (chars "pw1") [7]) [9] verifyBytes) = none ∧
    openVault toyAEAD toyKdf (createContainer toyAEAD toyKdf (chars "pw1") [7] [9])
        (chars "pw2") = .error (.vaultError verifyFailMsg) :=
  ⟨by decide,
   (openVault_wrong_password_uniform_failure toyAEAD toyKdf
      (chars "pw1") (chars "pw2") [7] [9] (by decide)).1⟩

/-- C3 (amended): storing an entry AEAD-encrypts the raw plaintext bytes
under the supplied fresh nonce — no compression is applied, so the stored
ciphertext decrypts back to exactly the original bytes — and records
`(nonce, ciphertext)` in the entry table and `{'size': len(data)}` (no
digest, no compressed size) in the metadata table for that key. -/
theorem encStore_raw_no_digest (A : AEAD) (key : Bytes) (hRT : RoundTrip A)
    (c : Container) (nonce : Bytes) (k : Str) (data : Bytes) :
    (∀ v', (k, v') ∈ (encStore A key c nonce k data).files ↔
      v' = (nonce, A.enc key nonce data)) ∧
    (∀ md, (k, md) ∈ (encStore A key c nonce k data).metadata ↔
      md = [(chars "size", data.length)]) ∧
    A.dec key nonce (A.enc key nonce data) = some data :=
  ⟨fun _ => dictSet_mem_self, fun _ => dictSet_mem_self, hRT key nonce data⟩

/-- Witness for C3's amended theorem at a concrete store. -/
theorem encStore_raw_no_digest_witness :
    RoundTrip toyAEAD ∧
    toyAEAD.dec wKey [3] (toyAEAD.enc wKey [3] [1, 2]) = some [1, 2] :=
  ⟨toyAEAD_roundtrip,
   (encStore_raw_no_digest toyAEAD wKey toyAEAD_roundtrip wEmpty [3]
      (chars "f") [1, 2]).2.2⟩

/-- Counterexample to C3 as stated: committing the file `f` with content
`[1,2,3,4,5]` stores metadata that is exactly `{'size': 5}` — it contains
no `digest`, `compressed_size` or `original_size` field — and the stored
ciphertext decrypts to the original uncompressed bytes directly. -/
theorem claim_store_compress_digest_false :
    dictGet (commit_updates toyAEAD wKey wSupply 0
        ⟨wEmpty, [⟨chars "f", .file (some [1, 2, 3, 4, 5])⟩], wEmpty⟩).2.1.container.metadata
        (chars "f") = some [(chars "size", 5)] ∧
    ((dictGet (commit_updates toyAEAD wKey wSupply 0
        ⟨wEmpty, [⟨chars "f", .file (some [1, 2, 3, 4, 5])⟩], wEmpty⟩).2.1.container.metadata
        (chars "f")).getD []).map Prod.fst = [chars "size"] ∧
    (chars "digest") ∉ ((dictGet (commit_updates toyAEAD wKey wSupply 0
        ⟨wEmpty, [⟨chars "f", .file (some [1, 2, 3, 4, 5])⟩], wEmpty⟩).2.1.container.metadata
        (chars "f")).getD []).map Prod.fst ∧
    dictGet (commit_updates toyAEAD wKey wSupply 0
        ⟨wEmpty, [⟨chars "f", .file (some [1, 2, 3, 4, 5])⟩], wEmpty⟩).2.1.container.files
        (chars "f") = some ([100], toyAEAD.enc wKey [100] [1, 2, 3, 4, 5]) ∧
    toyAEAD.dec wKey [100] (toyAEAD.enc wKey [100] [1, 2, 3, 4, 5])
      = some [1, 2, 3, 4, 5] := by
  refine ⟨rfl, rfl, ?_, rfl, rfl⟩
  decide

/-- C8: during `_save`, at every observable disk state the vault file
holds either the complete old serialized container or the complete new
one — never a partial write — and the final state holds the new container
with the temporary file gone. -/
theorem save_atomic (ser : Container → Bytes) (old new' : Container) :
    (∀ d ∈ saveTrace ser old new',
      d.vaultSlot = ser old ∨ d.vaultSlot = ser new') ∧
    (saveTrace ser old new').getLast? = some ⟨ser new', none⟩ := by
  constructor
  · intro d hd
    rcases List.mem_append.mp hd with h | h
    · rcases List.mem_map.mp h with ⟨i, _, rfl⟩
      exact Or.inl rfl
    · cases List.mem_singleton.mp h
      exact Or.inr rfl
  · exact List.getLast?_concat _

/-- Witness for C8: a concrete intermediate state of a concrete save. -/
theorem save_atomic_witness :
    (⟨[7], some []⟩ : Disk) ∈ saveTrace wSer wEmpty wEmpty ∧
    ((⟨[7], some []⟩ : Disk).vaultSlot = wSer wEmpty ∨
      (⟨[7], some []⟩ : Disk).vaultSlot = wSer wEmpty) :=
  ⟨by decide, (save_atomic wSer wEmpty wEmpty).1 _ (by decide)⟩

/-- C9 (amended): the program provides no `shred` operation; the shell's
dispatch recognizes exactly `ls`, `add`, `update`, `extract`,
`delete`/`rm` and `exit`/`quit`, and reports every other command word —
`shred` included — as an unknown command. -/
theorem dispatch_known_commands :
    ∀ s : Str, dispatch s = Cmd.unknown ↔ s ∉ knownCommands := by
  intro s
  unfold dispatch knownCommands
  split_ifs with h1 h2 h3 h4 h5 h6
  · subst h1; simp [chars]
  · subst h2; simp [chars]
  · subst h3; simp [chars]
  · subst h4; simp [chars]
  · rcases h5 with rfl | rfl <;> simp [chars]
  · rcases h6 with rfl | rfl <;> simp [chars]
  · rw [not_or] at h5 h6
    simp only [chars] at h1 h2 h3 h4 h5 h6
    simp [chars, h1, h2, h3, h4, h5.1, h5.2, h6.1, h6.2]

/-- Counterexample to C9 as stated: `shred` is not a command of the
program; the shell dispatch classifies it as unknown. -/
theorem claim_shred_exists_false : dispatch (chars "shred") = Cmd.unknown := by
  decide

/-- C10: `delete` filters the staging area (dropping every staged path
whose name equals the pattern) before it checks for matching container
entries; when no entry matches, it fails with the not-found `VaultError`
but the staging area has already been replaced by the filtered list — the
error path is not atomic. -/
theorem delete_unstages_before_match_check (st : VaultState) (pat : Str) :
    (delete st pat).2.staging = st.staging.filter (fun s => s.name != pat) ∧
    ((∀ e ∈ st.container.files, vaultMatch pat e.1 = false) →
      delete st pat = (.error (.vaultError (notFoundMsg pat)),
        { st with staging := st.staging.filter (fun s => s.name != pat) })) := by
  constructor
  · by_cases ht : (st.container.files.map (·.1)).filter (fun k => vaultMatch pat k)
        = [] <;> simp [delete, ht]
  · intro h
    have ht : (st.container.files.map (·.1)).filter (fun k => vaultMatch pat k)
        = [] := by
      rw [List.filter_eq_nil_iff]
      intro a ha
      rcases List.mem_map.mp ha with ⟨e, he, rfl⟩
      simp [h e he]
    simp [delete, ht]

/-- Witness for C10: deleting pattern `x` from a vault with no entries but
a staged path named `x` fails with not-found, yet the staging area has
been emptied. -/
theorem delete_unstages_before_match_check_witness :
    (∀ e ∈ wSt10.container.files, vaultMatch (chars "x") e.1 = false) ∧
    (delete wSt10 (chars "x")).1
      = .error (.vaultError (notFoundMsg (chars "x"))) ∧
    (delete wSt10 (chars "x")).2.staging = [] ∧
    wSt10.staging.map Staged.name = [chars "x"] := by
  have h : ∀ e ∈ wSt10.container.files, vaultMatch (chars "x") e.1 = false := by
    intro e he
    simp [wSt10, wEmpty, createContainer] at he
  refine ⟨h, ?_, ?_, rfl⟩
  · rw [(delete_unstages_before_match_check wSt10 (chars "x")).2 h]
  · rw [(delete_unstages_before_match_check wSt10 (chars "x")).1]
    rfl

/-- C5 (amended): a read failure on any staged file aborts the whole
commit call before `_save` runs: whatever the call is about to report,
either it succeeded, or the vault file on disk and the staging area are
exactly as they were before the call (already-processed entries survive
only in the in-memory container, not in the persisted vault file). -/
theorem commit_error_persists_nothing (A : AEAD) (key : Bytes)
    (supply : Nat → Bytes) (i : Nat) (st : VaultState)
    (r : Except PyErr Unit) (st' : VaultState) (j : Nat)
    (h : commit_updates A key supply i st = (r, st', j)) :
    r = .ok () ∨ (r ≠ .ok () ∧ st'.vaultFile = st.vaultFile ∧
      st'.staging = st.staging) := by
  unfold commit_updates at h
  split at h
  · cases h
    exact Or.inl rfl
  · rcases hsm : storeMany A key supply i st.container
        (st.staging.flatMap stagedEntries) with ⟨c', i', e?⟩
    rw [hsm] at h
    cases e? with
    | none =>
      cases h
      exact Or.inl rfl
    | some e =>
      cases h
      exact Or.inr ⟨by simp, rfl, rfl⟩

/-- Witness for C5's amended theorem at the concrete failing commit. -/
theorem commit_error_persists_nothing_witness :
    commit_updates toyAEAD wKey wSupply 0 wSt5
      = ((commit_updates toyAEAD wKey wSupply 0 wSt5).1,
         (commit_updates toyAEAD wKey wSupply 0 wSt5).2.1,
         (commit_updates toyAEAD wKey wSupply 0 wSt5).2.2) ∧
    ((commit_updates toyAEAD wKey wSupply 0 wSt5).1 = .ok () ∨
      ((commit_updates toyAEAD wKey wSupply 0 wSt5).1 ≠ .ok () ∧
       (commit_updates toyAEAD wKey wSupply 0 wSt5).2.1.vaultFile = wSt5.vaultFile ∧
       (commit_updates toyAEAD wKey wSupply 0 wSt5).2.1.staging = wSt5.staging)) :=
  ⟨rfl, commit_error_persists_nothing toyAEAD wKey wSupply 0 wSt5 _ _ _ rfl⟩

/-- Counterexample to C5 as stated: with file `a` (readable) staged before
file `b` (unreadable), commit fails, the vault file still holds no entry
`a` (nothing was persisted, against the claim's "already-processed entries
are still persisted"), even though the in-memory container was already
mutated with `a`, and the staging area is left uncleared. -/
theorem claim_commit_best_effort_persist_false :
    (commit_updates toyAEAD wKey wSupply 0 wSt5).1 = .error PyErr.ioError ∧
    (commit_updates toyAEAD wKey wSupply 0 wSt5).2.1.vaultFile = wEmpty ∧
    dictGet (commit_updates toyAEAD wKey wSupply 0 wSt5).2.1.vaultFile.files
      (chars "a") = none ∧
    dictGet (commit_updates toyAEAD wKey wSupply 0 wSt5).2.1.container.files
      (chars "a") = some ([100], toyAEAD.enc wKey [100] [1]) ∧
    (commit_updates toyAEAD wKey wSupply 0 wSt5).2.1.staging.map Staged.name
      = [chars "a", chars "b"] :=
  ⟨rfl, rfl, rfl, rfl, rfl⟩

/-- C4 (amended): during a multi-entry extract, the first matching entry
that fails AEAD decryption raises `InvalidTag` and aborts the whole call
at that point: the files already written for earlier matching entries
remain on disk, but no later matching entry is extracted, and no digest
comparison exists.  A corrupt entry is fatal to the rest of the batch. -/
theorem extract_error_aborts_batch (A : AEAD) (key : Bytes)
    (pat outDir k : Str) (n ct : Bytes)
    (pre post : List (Str × (Bytes × Bytes)))
    (salt vn vt : Bytes) (md : List (Str × (List (Str × Nat))))
    (hpre : ∀ e ∈ pre, vaultMatch pat e.1 = true → (A.dec key e.2.1 e.2.2).isSome)
    (hm : vaultMatch pat k = true) (hbad : A.dec key n ct = none) :
    extract A key ⟨salt, vn, vt, pre ++ (k, (n, ct)) :: post, md⟩ pat outDir
      = (goodWrites A key pat outDir pre, some PyErr.invalidTag) := by
  simp [extract, @extractLoop_abort A key pat outDir k n ct post hm hbad pre hpre]

/-- Witness for C4's amended theorem at the concrete corrupt container. -/
theorem extract_error_aborts_batch_witness :
    (∀ e ∈ ([] : List (Str × (Bytes × Bytes))),
      vaultMatch (chars "d") e.1 = true → (toyAEAD.dec wKey e.2.1 e.2.2).isSome) ∧
    vaultMatch (chars "d") (chars "d/a") = true ∧
    toyAEAD.dec wKey [0] [99] = none ∧
    extract toyAEAD wKey
        ⟨wEmpty.salt, wEmpty.ver_nonce, wEmpty.ver_tag,
         [] ++ (chars "d/a", ([0], [99]))
           :: [(chars "d/b", ([0], toyAEAD.enc wKey [0] [5]))],
         wEmpty.metadata⟩ (chars "d") (chars "o")
      = (goodWrites toyAEAD wKey (chars "d") (chars "o") [], some PyErr.invalidTag) :=
  ⟨fun e he => absurd he (List.not_mem_nil e), by decide, by decide,
   extract_error_aborts_batch toyAEAD wKey (chars "d") (chars "o") (chars "d/a")
     [0] [99] [] [(chars "d/b", ([0], toyAEAD.enc wKey [0] [5]))]
     wEmpty.salt wEmpty.ver_nonce wEmpty.ver_tag wEmpty.metadata
     (fun e he => absurd he (List.not_mem_nil e)) (by decide) (by decide)⟩

/-- Counterexample to C4 as stated: in `wBadContainer` the corrupt entry
`d/a` precedes the intact entry `d/b` (whose ciphertext does decrypt to
`[5]`); extracting pattern `d` raises `InvalidTag` having written nothing,
so the remaining matching entry `d/b` is *not* extracted — the corrupt
entry is fatal to the batch, not skipped. -/
theorem claim_corrupt_entry_skipped_false :
    extract toyAEAD wKey wBadContainer (chars "d") (chars "o")
      = ([], some PyErr.invalidTag) ∧
    (joinP (chars "o") (chars "d/b"), [5])
      ∉ (extract toyAEAD wKey wBadContainer (chars "d") (chars "o")).1 ∧
    toyAEAD.dec wKey [0] (toyAEAD.enc wKey [0] [5]) = some [5] := by
  refine ⟨rfl, ?_, rfl⟩
  decide

/-- C6: commit derives entry keys thus — a staged single file's key is its
file name; a staged directory contributes one entry per contained regular
file, keyed by the directory's own name followed by the file's
`/`-separated path relative to that directory (i.e. its path relative to
the staged directory's parent); concretely, committing directory `docs`
containing `docs/a.txt` and `docs/b/c.txt` yields exactly the entry keys
`docs/a.txt` and `docs/b/c.txt`, and `delete("docs")` then removes both. -/
theorem commit_key_derivation :
    (∀ (nm : Str) (cont : Option Bytes),
      stagedEntries ⟨nm, FsTree.file cont⟩ = [(nm, cont)]) ∧
    (∀ (nm : Str) (ch : List (Str × FsTree)),
      stagedEntries ⟨nm, FsTree.dir ch⟩ =
        (walkT [] (FsTree.dir ch)).map (fun p => (nm ++ p.1, p.2))) ∧
    ((commit_updates toyAEAD wKey wSupply 0 wStDocs).2.1.container.files.map
        Prod.fst = [chars "docs/a.txt", chars "docs/b/c.txt"]) ∧
    ((delete ⟨(commit_updates toyAEAD wKey wSupply 0 wStDocs).2.1.container, [],
        (commit_updates toyAEAD wKey wSupply 0 wStDocs).2.1.container⟩
        (chars "docs")).2.container.files = [] ∧
     (delete ⟨(commit_updates toyAEAD wKey wSupply 0 wStDocs).2.1.container, [],
        (commit_updates toyAEAD wKey wSupply 0 wStDocs).2.1.container⟩
        (chars "docs")).1 = .ok ()) := by
  refine ⟨fun nm cont => rfl, ?_, by decide, rfl, rfl⟩
  intro nm ch
  have h := walkT_rebase nm [] (FsTree.dir ch)
  rw [List.append_nil] at h
  simpa [stagedEntries] using h

/-- C7 (amended): the pattern match shared by `extract` and `delete`
matches an entry key `k` iff the pattern equals `k` exactly or `k` starts
with the pattern followed by `/` — there is no wildcard — and when no
entry key matches, `extract` and `delete` each fail with their
no-match `VaultError`. -/
theorem pattern_match_semantics :
    (∀ pat k : Str, vaultMatch pat k = true ↔
      (k = pat ∨ (pat ++ ['/']) <+: k)) ∧
    (∀ (A : AEAD) (key : Bytes) (c : Container) (pat outDir : Str),
      (∀ e ∈ c.files, vaultMatch pat e.1 = false) →
      extract A key c pat outDir
        = ([], some (.vaultError (noMatchMsg pat)))) ∧
    (∀ (st : VaultState) (pat : Str),
      (∀ e ∈ st.container.files, vaultMatch pat e.1 = false) →
      (delete st pat).1 = .error (.vaultError (notFoundMsg pat))) := by
  refine ⟨vaultMatch_iff, ?_, ?_⟩
  · intro A key c pat outDir h
    have hMD : ∀ e ∈ c.files, vaultMatch pat e.1 = true →
        (A.dec key e.2.1 e.2.2).isSome := by
      intro e he hm
      rw [h e he] at hm
      cases hm
    have hl := @extractLoop_eq A key pat outDir c.files hMD
    have hgw : goodWrites A key pat outDir c.files = [] := by
      rw [goodWrites, List.filterMap_eq_nil_iff]
      intro e he
      simp [h e he]
    have hany : c.files.any (fun e => vaultMatch pat e.1) = false := by
      rw [List.any_eq_false]
      intro e he
      simp [h e he]
    simp [extract, hl, hgw, hany]
  · exact fun st pat h => (delete_unstages_before_match_check st pat).2 h ▸ rfl

/-- Counterexample to C7 as stated: there is no designated wildcard — no
pattern matches every entry key (for any candidate `w`, the key `w ++ "!"`
is not matched). -/
theorem claim_wildcard_exists_false :
    ¬ ∃ w : Str, ∀ k : Str, vaultMatch w k = true := by
  rintro ⟨w, hw⟩
  rcases (vaultMatch_iff w (w ++ ['!'])).mp (hw (w ++ ['!'])) with h | h
  · have hlen := congrArg List.length h
    simp at hlen
  · rcases (List.prefix_append_right_inj w).mp h with ⟨t, ht⟩
    injection ht with h3 h4
    exact absurd h3 (by decide)

/-- Witness for C7's amended theorem at concrete instances. -/
theorem pattern_match_semantics_witness :
    (vaultMatch (chars "docs") (chars "docs/a.txt") = true ↔
      (chars "docs/a.txt" = chars "docs" ∨
        (chars "docs" ++ ['/']) <+: chars "docs/a.txt")) ∧
    ((∀ e ∈ wEmpty.files, vaultMatch (chars "z") e.1 = false) ∧
      extract toyAEAD wKey wEmpty (chars "z") (chars "o")
        = ([], some (.vaultError (noMatchMsg (chars "z"))))) ∧
    (delete ⟨wEmpty, [], wEmpty⟩ (chars "z")).1
      = .error (.vaultError (notFoundMsg (chars "z"))) := by
  have h : ∀ e ∈ wEmpty.files, vaultMatch (chars "z") e.1 = false := by
    intro e he
    simp [wEmpty, createContainer] at he
  refine ⟨pattern_match_semantics.1 _ _,
    ⟨h, pattern_match_semantics.2.1 toyAEAD wKey wEmpty (chars "z") (chars "o") h⟩,
    pattern_match_semantics.2.2 ⟨wEmpty, [], wEmpty⟩ (chars "z") ?_⟩
  intro e he
  simp [wEmpty, createContainer] at he

/-- C1: for a file with byte content `C` staged and committed under entry
key `k` (into any honestly built vault, i.e. one whose stored entries all
decrypt under the vault key), the commit succeeds, persists the in-memory
container to the vault file, and a subsequent `extract` with pattern `k`
to `out_dir` succeeds and writes a file at `out_dir/k` whose content is
exactly `C`, byte for byte. -/
theorem commit_then_extract_roundtrip (A : AEAD) (key : Bytes)
    (supply : Nat → Bytes) (i : Nat) (c d : Container) (k : Str) (C : Bytes)
    (outDir : Str) (hRT : RoundTrip A) (hdec : AllDec A key c.files) :
    ∃ st' i',
      commit_updates A key supply i ⟨c, [⟨k, FsTree.file (some C)⟩], d⟩
        = (.ok (), st', i') ∧
      st'.vaultFile = st'.container ∧
      (extract A key st'.container k outDir).2 = none ∧
      (joinP outDir k, C) ∈ (extract A key st'.container k outDir).1 ∧
      ∀ b, (joinP outDir k, b) ∈ (extract A key st'.container k outDir).1 →
        b = C := by
  have hcommit : commit_updates A key supply i ⟨c, [⟨k, FsTree.file (some C)⟩], d⟩
      = (.ok (), ⟨encStore A key c (supply i) k C, [],
                  encStore A key c (supply i) k C⟩, i + 1) := by
    simp [commit_updates, stagedEntries, storeMany]
  refine ⟨⟨encStore A key c (supply i) k C, [], encStore A key c (supply i) k C⟩,
    i + 1, hcommit, rfl, ?_, ?_, ?_⟩
  all_goals
    have hAll : AllDec A key (encStore A key c (supply i) k C).files :=
      allDec_encStore hRT hdec
    have hMD : ∀ e ∈ (encStore A key c (supply i) k C).files,
        vaultMatch k e.1 = true → (A.dec key e.2.1 e.2.2).isSome :=
      fun e he _ => hAll e he
    have hkmem : (k, (supply i, A.enc key (supply i) C))
        ∈ (encStore A key c (supply i) k C).files := dictSet_mem_self.mpr rfl
    have hself : vaultMatch k k = true := by simp [vaultMatch]
    have hany : (encStore A key c (supply i) k C).files.any
        (fun e => vaultMatch k e.1) = true :=
      List.any_eq_true.mpr ⟨_, hkmem, hself⟩
    have hex : extract A key (encStore A key c (supply i) k C) k outDir
        = (goodWrites A key k outDir (encStore A key c (supply i) k C).files,
           none) := by
      simp [extract,
        @extractLoop_eq A key k outDir (encStore A key c (supply i) k C).files hMD,
        hany]
  · rw [hex]
  · rw [hex]
    exact mem_goodWrites hkmem hself (hRT key (supply i) C)
  · intro b hb
    rw [hex] at hb
    obtain ⟨e, he, hm, hdecb, hpj⟩ := of_mem_goodWrites hb
    have hek : k = e.1 := joinP_right_inj hpj
    rcases e with ⟨k1, n1, ct1⟩
    dsimp at hek hdecb
    subst hek
    have hv := dictSet_mem_self.mp he
    injection hv with hn hct
    subst hn
    subst hct
    rw [hRT key (supply i) C] at hdecb
    exact (Option.some.inj hdecb).symm

/-- Witness for C1 at a concrete commit-then-extract of `notes.txt`. -/
theorem commit_then_extract_roundtrip_witness :
    RoundTrip toyAEAD ∧ AllDec toyAEAD wKey wEmpty.files ∧
    ∃ st' i',
      commit_updates toyAEAD wKey wSupply 0
          ⟨wEmpty, [⟨chars "notes.txt", FsTree.file (some [104, 105])⟩], wEmpty⟩
        = (.ok (), st', i') ∧
      st'.vaultFile = st'.container ∧
      (extract toyAEAD wKey st'.container (chars "notes.txt")
        (chars "out")).2 = none ∧
      (joinP (chars "out") (chars "notes.txt"), [104, 105])
        ∈ (extract toyAEAD wKey st'.container (chars "notes.txt")
            (chars "out")).1 ∧
      ∀ b, (joinP (chars "out") (chars "notes.txt"), b)
        ∈ (extract toyAEAD wKey st'.container (chars "notes.txt")
            (chars "out")).1 → b = [104, 105] := by
  have hA : AllDec toyAEAD wKey wEmpty.files := by
    intro e he
    simp [wEmpty, createContainer] at he
  exact ⟨toyAEAD_roundtrip, hA,
    commit_then_extract_roundtrip toyAEAD wKey wSupply 0 wEmpty wEmpty
      (chars "notes.txt") [104, 105] (chars "out") toyAEAD_roundtrip hA⟩
